import Mathlib

/-!
Shallow embedding of the exchange-rate service (Go repository
`currencyexe`): the rate cache (`internal/cache/cache.go`), the
conversion service (`internal/services`, file with
`ConvertCurrencyAmount` / `GetHistoricalExchangeRate`), the outbound
rate client (`internal/client`) and the relevant configuration
(`config/config.go`).

Modelling conventions:
* Go strings are `List Char` (`Str` below).  `strings.ToUpper` /
  `strings.TrimSpace` are embedded for the ASCII letter range and the
  Go `unicode.IsSpace` Latin-1 space set; the proved properties use
  only idempotence of upper-casing and the fact that upper-casing
  maps non-space characters to non-space characters, both of which
  the full Unicode mappings also satisfy.
* `float64` amounts and rates are modelled as `ℚ`.  No settled claim
  depends on floating-point rounding: rates are passed through
  unchanged and comparisons (`amt < 0`, `rate <= 0`) are exact.
* Instants (`time.Time`, `time.Now()`) are `Int` seconds in UTC;
  `time.Parse "2006-01-02"` yields the midnight of the parsed civil
  date and `AddDate(0, 0, -n)` is subtraction of `n * 86400` seconds
  (the service compares instants with `Before` / `After`).
* The Go `map[string]rateEntry` is a function `Str → Option rateEntry`
  (Go map writes are unconditional overwrites, as is the function
  update).
* Effects are made explicit: each service operation returns its
  result, the cache state after the call, and the lists of cache
  operations and provider calls it performed, in order.  Errors are an
  inductive type with one constructor per `fmt.Errorf` site.
-/

namespace CurrencyExe

/-- Go strings, as lists of characters. -/
abbrev Str := List Char

/-- Decidable equality of `Except` results, used to evaluate the
embedded operations on concrete inputs. -/
instance {e a : Type} [DecidableEq e] [DecidableEq a] :
    DecidableEq (Except e a) := fun x y =>
  match x, y with
  | .ok u, .ok v =>
    if h : u = v then .isTrue (by rw [h])
    else .isFalse (fun hh => h (Except.ok.inj hh))
  | .error u, .error v =>
    if h : u = v then .isTrue (by rw [h])
    else .isFalse (fun hh => h (Except.error.inj hh))
  | .ok _, .error _ => .isFalse (fun hh => Except.noConfusion hh)
  | .error _, .ok _ => .isFalse (fun hh => Except.noConfusion hh)

/-- `unicode.IsSpace` restricted to Go's Latin-1 space table:
`'\t'`, `'\n'`, `'\v'`, `'\f'`, `'\r'`, `' '`, U+0085 (NEL),
U+00A0 (NBSP). -/
def goIsSpace (c : Char) : Bool :=
  c = ' ' || c = '\t' || c = '\n' || c = '\x0b' || c = '\x0c' ||
  c = '\r' || c = '\x85' || c = '\xa0'

/-- `unicode.ToUpper` on a single character, restricted to the ASCII
letters (all characters appearing in the settled claims). -/
def goToUpperChar (c : Char) : Char :=
  if c = 'a' then 'A' else if c = 'b' then 'B' else
  if c = 'c' then 'C' else if c = 'd' then 'D' else
  if c = 'e' then 'E' else if c = 'f' then 'F' else
  if c = 'g' then 'G' else if c = 'h' then 'H' else
  if c = 'i' then 'I' else if c = 'j' then 'J' else
  if c = 'k' then 'K' else if c = 'l' then 'L' else
  if c = 'm' then 'M' else if c = 'n' then 'N' else
  if c = 'o' then 'O' else if c = 'p' then 'P' else
  if c = 'q' then 'Q' else if c = 'r' then 'R' else
  if c = 's' then 'S' else if c = 't' then 'T' else
  if c = 'u' then 'U' else if c = 'v' then 'V' else
  if c = 'w' then 'W' else if c = 'x' then 'X' else
  if c = 'y' then 'Y' else if c = 'z' then 'Z' else c

/-- `strings.ToUpper`. -/
def goToUpper (s : Str) : Str := s.map goToUpperChar

/-- `strings.TrimSpace`: drop spaces from both ends. -/
def goTrimSpace (s : Str) : Str :=
  ((s.dropWhile goIsSpace).reverse.dropWhile goIsSpace).reverse

/-- The normalization applied by `buildRateKey` (cache.go:168-169) and
`IsSupportedCurrency` (config.go:99): `ToUpper(TrimSpace(s))`. -/
def normalizeCode (s : Str) : Str := goToUpper (goTrimSpace s)

/-- `buildRateKey` (cache.go:167-171): `"FROM-TO"` from the two
normalized codes. -/
def buildRateKey (fromC toC : Str) : Str :=
  normalizeCode fromC ++ '-' :: normalizeCode toC

/-- `rateEntry` (cache.go:35-38). -/
structure rateEntry where
  exchangeRate : ℚ
  lastUpdated : Int
deriving DecidableEq

/-- The cache table `rateData : map[string]rateEntry` (cache.go:25). -/
abbrev Cache := Str → Option rateEntry

/-- `NewExchangeRateCache` starts from an empty map (cache.go:49). -/
def emptyCache : Cache := fun _ => none

/-- `GetRate` (cache.go:57-69): read-only lookup under the key built
by `buildRateKey`; `(0, false)` when absent. -/
def GetRate (cache : Cache) (fromC toC : Str) : ℚ × Bool :=
  match cache (buildRateKey fromC toC) with
  | some entry => (entry.exchangeRate, true)
  | none => (0, false)

/-- `SetRate` (cache.go:72-81): unconditional overwrite under the
normalized key, stamped with the current instant. -/
def SetRate (cache : Cache) (fromC toC : Str) (rate : ℚ) (now : Int) :
    Cache :=
  fun k =>
    if k = buildRateKey fromC toC then
      some { exchangeRate := rate, lastUpdated := now }
    else cache k

/-- `config.SupportedCurrencyList` (config.go:21). -/
def SupportedCurrencyList : List Str :=
  ["USD".data, "INR".data, "EUR".data, "JPY".data, "GBP".data]

/-- `config.MaxAllowedHistoryDays` (config.go:14), the default for
`config.MaxHistoricalDays`. -/
def MaxAllowedHistoryDays : Nat := 90

/-- `config.IsSupportedCurrency` (config.go:98-113): normalize, reject
the empty result, then linear search of the allow-list. -/
def IsSupportedCurrency (code : Str) : Bool :=
  let cleanCode := normalizeCode code
  if cleanCode = [] then false
  else SupportedCurrencyList.any (fun supported => supported = cleanCode)

/-! ### Civil dates

`time.Parse("2006-01-02", s)` accepts exactly ten characters
`dddd-dd-dd` with a month in 1..12 and a day valid for that month
(Gregorian leap rules), and yields the midnight UTC instant of that
civil date.  We embed it via a day count from 0000-01-01 (proleptic
Gregorian), scaled to seconds. -/

/-- Gregorian leap year. -/
def isLeapYear (y : Nat) : Bool :=
  y % 4 = 0 && (y % 100 ≠ 0 || y % 400 = 0)

/-- Days in a month (1..12) of year `y`; 0 for anything else. -/
def daysInMonth (y m : Nat) : Nat :=
  if m = 1 then 31 else if m = 2 then (if isLeapYear y then 29 else 28)
  else if m = 3 then 31 else if m = 4 then 30 else if m = 5 then 31
  else if m = 6 then 30 else if m = 7 then 31 else if m = 8 then 31
  else if m = 9 then 30 else if m = 10 then 31 else if m = 11 then 30
  else if m = 12 then 31 else 0

/-- Days in the months of year `y` strictly before month `m`. -/
def daysBeforeMonth (y m : Nat) : Nat :=
  let leapExtra := if isLeapYear y then 1 else 0
  if m = 1 then 0 else if m = 2 then 31 else if m = 3 then 59 + leapExtra
  else if m = 4 then 90 + leapExtra else if m = 5 then 120 + leapExtra
  else if m = 6 then 151 + leapExtra else if m = 7 then 181 + leapExtra
  else if m = 8 then 212 + leapExtra else if m = 9 then 243 + leapExtra
  else if m = 10 then 273 + leapExtra else if m = 11 then 304 + leapExtra
  else 334 + leapExtra

/-- Leap years among `0, 1, …, y - 1` (year 0 is leap). -/
def leapYearsBefore (y : Nat) : Nat :=
  (y + 3) / 4 - (y + 99) / 100 + (y + 399) / 400

/-- Day number of the civil date `y-m-d` counted from 0000-01-01. -/
def civilDayNumber (y m d : Nat) : Nat :=
  365 * y + leapYearsBefore y + daysBeforeMonth y m + (d - 1)

/-- Day number of the Unix epoch 1970-01-01. -/
def epochDayNumber : Nat := civilDayNumber 1970 1 1

/-- Midnight UTC of `y-m-d` as seconds since the Unix epoch. -/
def dateSeconds (y m d : Nat) : Int :=
  86400 * ((civilDayNumber y m d : Int) - (epochDayNumber : Int))

/-- Numeric value of a decimal digit character. -/
def digitVal (c : Char) : Nat := c.toNat - '0'.toNat

/-- `time.Parse("2006-01-02", s)` (services, line 265): `some` of the
midnight instant on success, `none` on any parse failure (wrong
shape, non-digits, month or day out of range). -/
def parseDate (s : Str) : Option Int :=
  match s with
  | [y1, y2, y3, y4, s1, m1, m2, s2, d1, d2] =>
    if s1 = '-' ∧ s2 = '-' ∧ y1.isDigit ∧ y2.isDigit ∧ y3.isDigit ∧
        y4.isDigit ∧ m1.isDigit ∧ m2.isDigit ∧ d1.isDigit ∧ d2.isDigit
    then
      let y := 1000 * digitVal y1 + 100 * digitVal y2 +
        10 * digitVal y3 + digitVal y4
      let m := 10 * digitVal m1 + digitVal m2
      let d := 10 * digitVal d1 + digitVal d2
      if 1 ≤ m ∧ m ≤ 12 ∧ 1 ≤ d ∧ d ≤ daysInMonth y m then
        some (dateSeconds y m d)
      else none
    else none
  | _ => none

/-! ### Errors

One constructor per `fmt.Errorf` site reachable from the embedded
operations (Go errors are untyped; constructor identity stands for
the distinct message produced at each site). -/

/-- Failures of the rate client (`internal/client`). -/
inductive ClientError where
  /-- "http req failed" (transport error from `client.Get`). -/
  | httpReqFailed
  /-- "api http %d: %s" (non-200 status). -/
  | httpStatus (code : Nat) (body : Str)
  /-- "read body failed". -/
  | readBodyFailed
  /-- "json parse failed". -/
  | jsonParseFailed
  /-- "api error: %s" (`Result` field not "success"). -/
  | apiError (result : Str)
  /-- "invalid rate: %f" (`ConversionRate <= 0`). -/
  | invalidRate (rate : ℚ)
  /-- "failed after %d tries: %w" (`RateClient.GetRate` wrapper). -/
  | failedAfterRetries (last : ClientError)
deriving DecidableEq

/-- Failures of the conversion service (`internal/services`). -/
inductive SvcErr where
  /-- "unsupported source currency: %s". -/
  | unsupportedSource (code : Str)
  /-- "unsupported target currency: %s". -/
  | unsupportedTarget (code : Str)
  /-- "amount cannot be negative: %f". -/
  | negativeAmount (amt : ℚ)
  /-- "date cannot be empty". -/
  | dateEmpty
  /-- "invalid date format, expected YYYY-MM-DD: %s". -/
  | invalidDateFormat (dateStr : Str)
  /-- "date cannot be in the future: %s". -/
  | futureDate (dateStr : Str)
  /-- "date is too far in the past, maximum %d days allowed". -/
  | dateOutOfRange
  /-- An error returned as-is from the API client. -/
  | apiErr (e : ClientError)
  /-- "failed to get exchange rate: %w". -/
  | fetchRateFailed (e : SvcErr)
  /-- "failed to fetch historical rate: %w". -/
  | fetchHistoricalFailed (e : SvcErr)
deriving DecidableEq

/-- `validateAndParseDate` (services, lines 259-276): reject the empty
string, parse strictly, reject instants after `now`. -/
def validateAndParseDate (now : Int) (dateStr : Str) :
    Except SvcErr Int :=
  if dateStr = [] then .error .dateEmpty
  else
    match parseDate dateStr with
    | none => .error (.invalidDateFormat dateStr)
    | some parsedDate =>
      if now < parsedDate then .error (.futureDate dateStr)
      else .ok parsedDate

/-- `validateHistoricalRange` (services, lines 279-288):
`oldestAllowedDate = now.AddDate(0, 0, -maxDays)`; reject instants
strictly before it. -/
def validateHistoricalRange (now : Int) (maxDays : Nat)
    (requestedDate : Int) : Except SvcErr Unit :=
  let oldestAllowedDate := now - 86400 * (maxDays : Int)
  if requestedDate < oldestAllowedDate then .error .dateOutOfRange
  else .ok ()

/-- `validateCurrencyPair` (services, lines 246-256). -/
def validateCurrencyPair (fromC toC : Str) : Except SvcErr Unit :=
  if ¬ IsSupportedCurrency fromC then .error (.unsupportedSource fromC)
  else if ¬ IsSupportedCurrency toC then
    .error (.unsupportedTarget toC)
  else .ok ()

/-! ### The rate client (`internal/client`) -/

/-- The fields of `apiResp` the client inspects. -/
structure ApiResp where
  result : Str
  conversionRate : ℚ
deriving DecidableEq

/-- Outcome of one HTTP GET, as observed by `doAPICall`: a transport
failure, or a response with status code, a body-read outcome and the
JSON decoding of the body (`none` when unmarshalling fails). -/
inductive HTTPResponse where
  | failed
  | resp (status : Nat) (readFails : Bool) (body : Str)
      (decoded : Option ApiResp)

/-- `buildEndpoint` (client, lines 110-113):
`"/<key>/pair/<from>/<to>/1"`.  The date argument is ignored
("ignore date for now - need paid plan"). -/
def buildEndpoint (apiKey fromC toC _dt : Str) : Str :=
  '/' :: apiKey ++ "/pair/".data ++ fromC ++ '/' :: toC ++ "/1".data

/-- `doAPICall` (client, lines 70-107) over an abstract HTTP layer
`http : endpoint → HTTPResponse`: status check, body read, JSON
decode, `Result == "success"` check, `ConversionRate > 0` check. -/
def doAPICall (http : Str → HTTPResponse) (apiKey fromC toC dt : Str) :
    Except ClientError ℚ :=
  let endpoint := buildEndpoint apiKey fromC toC dt
  match http endpoint with
  | .failed => .error .httpReqFailed
  | .resp status readFails body decoded =>
    if status ≠ 200 then .error (.httpStatus status body)
    else if readFails then .error .readBodyFailed
    else
      match decoded with
      | none => .error .jsonParseFailed
      | some response =>
        if response.result ≠ "success".data then
          .error (.apiError response.result)
        else if response.conversionRate ≤ 0 then
          .error (.invalidRate response.conversionRate)
        else .ok response.conversionRate

/-- `RateClient.GetRate` (client, lines 47-67): `maxRetries = 2`,
one retry after a failed attempt, the final error wrapping the last
attempt's error.  `http i` is the HTTP layer seen by attempt `i`. -/
def clientGetRate (http : Nat → Str → HTTPResponse)
    (apiKey fromC toC dt : Str) : Except ClientError ℚ :=
  match doAPICall (http 1) apiKey fromC toC dt with
  | .ok rate => .ok rate
  | .error _ =>
    match doAPICall (http 2) apiKey fromC toC dt with
    | .ok rate => .ok rate
    | .error lastErr => .error (.failedAfterRetries lastErr)

/-! ### The conversion service (`internal/services`) -/

/-- The `ExchangeRateAPIClient` capability: `(from, to, dateStr) →
(rate, error)`. -/
abbrev Provider := Str → Str → Str → Except ClientError ℚ

/-- A cache operation performed by the service, in call order. -/
inductive CacheOp where
  | getOp (fromC toC : Str)
  | setOp (fromC toC : Str) (rate : ℚ)
deriving DecidableEq

/-- Result of a service operation: the returned value or error, the
cache state afterwards, and the cache / provider calls performed. -/
structure SvcOut where
  result : Except SvcErr ℚ
  cache : Cache
  cacheOps : List CacheOp
  apiCalls : List (Str × Str × Str)

/-- `getExchangeRateForPair` (services, lines 213-243).  Non-empty
date: validate, then call the provider directly.  Empty date: cache
lookup; on a hit return the cached rate; on a miss call the provider
and, on success only, write through with `SetRate`. -/
def getExchangeRateForPair (provider : Provider) (cache : Cache)
    (now : Int) (maxDays : Nat) (fromC toC dateStr : Str) : SvcOut :=
  if dateStr ≠ [] then
    match validateAndParseDate now dateStr with
    | .error e => ⟨.error e, cache, [], []⟩
    | .ok parsedDate =>
      match validateHistoricalRange now maxDays parsedDate with
      | .error e => ⟨.error e, cache, [], []⟩
      | .ok _ =>
        match provider fromC toC dateStr with
        | .error e =>
          ⟨.error (.apiErr e), cache, [], [(fromC, toC, dateStr)]⟩
        | .ok rate => ⟨.ok rate, cache, [], [(fromC, toC, dateStr)]⟩
  else
    match GetRate cache fromC toC with
    | (rate, true) => ⟨.ok rate, cache, [.getOp fromC toC], []⟩
    | (_, false) =>
      match provider fromC toC [] with
      | .error e =>
        ⟨.error (.apiErr e), cache, [.getOp fromC toC],
          [(fromC, toC, [])]⟩
      | .ok rate =>
        ⟨.ok rate, SetRate cache fromC toC rate now,
          [.getOp fromC toC, .setOp fromC toC rate],
          [(fromC, toC, [])]⟩

/-- `ConvertCurrencyAmount` (services, lines 154-177): currency
validation, `amt < 0` check, raw-string `from == to` identity
short-circuit, otherwise rate resolution and `amt * rate`, wrapping
resolution errors. -/
def ConvertCurrencyAmount (provider : Provider) (cache : Cache)
    (now : Int) (maxDays : Nat) (fromC toC : Str) (amt : ℚ)
    (dt : Str) : SvcOut :=
  match validateCurrencyPair fromC toC with
  | .error e => ⟨.error e, cache, [], []⟩
  | .ok _ =>
    if amt < 0 then ⟨.error (.negativeAmount amt), cache, [], []⟩
    else if fromC = toC then ⟨.ok amt, cache, [], []⟩
    else
      let r := getExchangeRateForPair provider cache now maxDays
        fromC toC dt
      match r.result with
      | .error e =>
        ⟨.error (.fetchRateFailed e), r.cache, r.cacheOps, r.apiCalls⟩
      | .ok rate => ⟨.ok (amt * rate), r.cache, r.cacheOps, r.apiCalls⟩

/-- `GetHistoricalExchangeRate` (services, lines 180-209): currency
validation, `from == to → 1.0`, strict date parse + range check, then
a direct provider call — the cache is never consulted or written. -/
def GetHistoricalExchangeRate (provider : Provider) (cache : Cache)
    (now : Int) (maxDays : Nat) (fromC toC dateStr : Str) : SvcOut :=
  match validateCurrencyPair fromC toC with
  | .error e => ⟨.error e, cache, [], []⟩
  | .ok _ =>
    if fromC = toC then ⟨.ok 1, cache, [], []⟩
    else
      match validateAndParseDate now dateStr with
      | .error e => ⟨.error e, cache, [], []⟩
      | .ok parsedDate =>
        match validateHistoricalRange now maxDays parsedDate with
        | .error e => ⟨.error e, cache, [], []⟩
        | .ok _ =>
          match provider fromC toC dateStr with
          | .error e =>
            ⟨.error (.fetchHistoricalFailed (.apiErr e)), cache, [],
              [(fromC, toC, dateStr)]⟩
          | .ok rate => ⟨.ok rate, cache, [], [(fromC, toC, dateStr)]⟩

/-! ### Background refresh (`internal/cache`) -/

/-- The ordered pairs `(i, j)` with `i ≠ j` visited by the nested
loops of `refreshAllRates` (cache.go:127-132), in visit order.  The
skip is on positions, exactly as in the source (`if i == j`). -/
def indexedPairs (currencies : List Str) : List (Str × Str) :=
  currencies.enum.flatMap fun p =>
    currencies.enum.filterMap fun q =>
      if p.1 = q.1 then none else some (p.2, q.2)

/-- The body of the refresh loop (cache.go:138-147): fetch the latest
rate for one pair; on failure leave the cache as is (`continue`), on
success `SetRate`. -/
def refreshPairStep (provider : Provider) (now : Int) (c : Cache)
    (p : Str × Str) : Cache :=
  match provider p.1 p.2 [] with
  | .error _ => c
  | .ok rate => SetRate c p.1 p.2 rate now

/-- `refreshAllRates` (cache.go:118-164): run the loop body over all
visited pairs in order. -/
def refreshAllRates (provider : Provider) (currencies : List Str)
    (now : Int) (cache : Cache) : Cache :=
  (indexedPairs currencies).foldl (refreshPairStep provider now) cache

/-- Cache states reachable from the empty table through the core's
operations, with the provider always being the rate client (so every
stored rate went through `doAPICall`'s validation).  Each step may see
its own HTTP layer, API key, instant and configuration. -/
inductive Reachable : Cache → Prop where
  | empty : Reachable emptyCache
  | convertStep (http : Nat → Str → HTTPResponse) (apiKey : Str)
      (now : Int) (maxDays : Nat) (fromC toC : Str) (amt : ℚ)
      (dt : Str) (c : Cache) :
      Reachable c →
      Reachable (ConvertCurrencyAmount (clientGetRate http apiKey) c
        now maxDays fromC toC amt dt).cache
  | historicalStep (http : Nat → Str → HTTPResponse) (apiKey : Str)
      (now : Int) (maxDays : Nat) (fromC toC dateStr : Str)
      (c : Cache) :
      Reachable c →
      Reachable (GetHistoricalExchangeRate (clientGetRate http apiKey)
        c now maxDays fromC toC dateStr).cache
  | refreshStep (http : Nat → Str → HTTPResponse) (apiKey : Str)
      (currencies : List Str) (now : Int) (c : Cache) :
      Reachable c →
      Reachable (refreshAllRates (clientGetRate http apiKey)
        currencies now c)

/-! ### Helper lemmas -/

/-- A stub provider whose every call succeeds with rate 2. -/
def stubProvider : Provider := fun _ _ _ => .ok 2

/-- When both codes are supported, `validateCurrencyPair` succeeds. -/
theorem validateCurrencyPair_ok {fromC toC : Str}
    (hf : IsSupportedCurrency fromC = true)
    (ht : IsSupportedCurrency toC = true) :
    validateCurrencyPair fromC toC = .ok () := by
  unfold validateCurrencyPair
  simp [hf, ht]

/-- Reading back the key just written by `SetRate`. -/
theorem getRate_setRate_same (cache : Cache) (fromC toC : Str)
    (rate : ℚ) (now : Int) :
    GetRate (SetRate cache fromC toC rate now) fromC toC
      = (rate, true) := by
  unfold GetRate SetRate
  simp

/-! ### C7: negative amounts -/

/-- C7: for every pair of supported currencies and every amount
`amt < 0`, `ConvertCurrencyAmount(from, to, amt, "")` fails with the
negative-amount error regardless of the cache's contents, with no
provider call and no cache operation, leaving the cache unchanged. -/
theorem negativeAmountRejected (provider : Provider) (cache : Cache)
    (now : Int) (maxDays : Nat) (fromC toC : Str) (amt : ℚ)
    (hf : IsSupportedCurrency fromC = true)
    (ht : IsSupportedCurrency toC = true) (hneg : amt < 0) :
    ConvertCurrencyAmount provider cache now maxDays fromC toC amt []
      = ⟨.error (.negativeAmount amt), cache, [], []⟩ := by
  unfold ConvertCurrencyAmount
  rw [validateCurrencyPair_ok hf ht]
  simp [hneg]

/-- Witness for C7 at from = "USD", to = "EUR", amount = -1. -/
theorem negativeAmountRejectedInstance :
    ConvertCurrencyAmount stubProvider emptyCache 0 90 "USD".data
        "EUR".data (-1) []
      = ⟨.error (.negativeAmount (-1)), emptyCache, [], []⟩ :=
  negativeAmountRejected stubProvider emptyCache 0 90 "USD".data
    "EUR".data (-1) (by decide) (by decide) (by norm_num)

/-! ### C3: same-currency identity -/

/-- C3 counterexample: "usd" and "USD" are equal after normalization
(both supported), yet `ConvertCurrencyAmount("usd", "USD", 100, "")`
does NOT short-circuit: it performs a cache lookup and a provider
call, and with a provider rate of 2 returns 200, not the unchanged
amount.  The source compares `from == to` on the raw strings
(services, line 165), before any normalization. -/
theorem sameCurrencyNormalizedCounterexample :
    normalizeCode "usd".data = normalizeCode "USD".data ∧
    IsSupportedCurrency "usd".data = true ∧
    (ConvertCurrencyAmount stubProvider emptyCache 0 90 "usd".data
      "USD".data 100 []).apiCalls = [("usd".data, "USD".data, [])] ∧
    (ConvertCurrencyAmount stubProvider emptyCache 0 90 "usd".data
      "USD".data 100 []).cacheOps
      = [.getOp "usd".data "USD".data,
         .setOp "usd".data "USD".data 2] ∧
    (ConvertCurrencyAmount stubProvider emptyCache 0 90 "usd".data
      "USD".data 100 []).result = .ok 200 := by
  refine ⟨by decide, by decide, by decide, by decide, ?_⟩
  have h : (ConvertCurrencyAmount stubProvider emptyCache 0 90
      "usd".data "USD".data 100 []).result = .ok (100 * 2) := rfl
  rw [h]
  norm_num

/-- C3 (amended): the identity short-circuit applies exactly when the
two codes are equal as raw strings: for every supported code `c` and
amount `amt ≥ 0`, `ConvertCurrencyAmount(c, c, amt, "")` returns
`amt` unchanged with no cache operation and no provider call.  Codes
equal only after normalization instead go through rate resolution. -/
theorem sameCurrencyRawIdentity (provider : Provider) (cache : Cache)
    (now : Int) (maxDays : Nat) (c : Str) (amt : ℚ)
    (hc : IsSupportedCurrency c = true) (hamt : 0 ≤ amt) :
    ConvertCurrencyAmount provider cache now maxDays c c amt []
      = ⟨.ok amt, cache, [], []⟩ := by
  unfold ConvertCurrencyAmount
  rw [validateCurrencyPair_ok hc hc]
  simp [not_lt.mpr hamt]

/-- Witness for the amended C3 at c = "USD", amount = 0. -/
theorem sameCurrencyRawIdentityInstance :
    ConvertCurrencyAmount stubProvider emptyCache 0 90 "USD".data
        "USD".data 0 []
      = ⟨.ok 0, emptyCache, [], []⟩ :=
  sameCurrencyRawIdentity stubProvider emptyCache 0 90 "USD".data 0
    (by decide) (by norm_num)

/-! ### C9: the provider request ignores the date -/

/-- C9: for all currencies and any two date strings d1 and d2, the
rate client builds the identical endpoint (the date argument is
ignored by `buildEndpoint`), so a single API call and the retrying
`clientGetRate` return identical outcomes for d1 and d2 — only the
service-level validation distinguishes dates. -/
theorem endpointIgnoresDate (http : Str → HTTPResponse)
    (httpSeq : Nat → Str → HTTPResponse) (apiKey fromC toC d1 d2 : Str) :
    buildEndpoint apiKey fromC toC d1 = buildEndpoint apiKey fromC toC d2 ∧
    doAPICall http apiKey fromC toC d1 = doAPICall http apiKey fromC toC d2 ∧
    clientGetRate httpSeq apiKey fromC toC d1
      = clientGetRate httpSeq apiKey fromC toC d2 :=
  ⟨rfl, rfl, rfl⟩

/-! ### C1: latest-path cache resolution -/

/-- C1: with an empty date string, `getExchangeRateForPair` — the
rate resolution used by `ConvertCurrencyAmount` — first checks the
cache: on a hit it returns the cached rate at once with no provider
call; on a miss it calls the provider once, and on success stores the
fetched rate via `SetRate` before returning it, so a subsequent
`GetRate(from, to)` finds that same rate; on provider failure the
error propagates and the cache is left unchanged. -/
theorem latestPathWriteThrough (provider : Provider) (cache : Cache)
    (now : Int) (maxDays : Nat) (fromC toC : Str)
    (hf : IsSupportedCurrency fromC = true)
    (ht : IsSupportedCurrency toC = true) :
    (∀ entry, cache (buildRateKey fromC toC) = some entry →
      getExchangeRateForPair provider cache now maxDays fromC toC []
        = ⟨.ok entry.exchangeRate, cache, [.getOp fromC toC], []⟩) ∧
    (cache (buildRateKey fromC toC) = none →
      (∀ q, provider fromC toC [] = .ok q →
        getExchangeRateForPair provider cache now maxDays fromC toC []
          = ⟨.ok q, SetRate cache fromC toC q now,
              [.getOp fromC toC, .setOp fromC toC q],
              [(fromC, toC, [])]⟩ ∧
        GetRate (getExchangeRateForPair provider cache now maxDays
          fromC toC []).cache fromC toC = (q, true)) ∧
      (∀ e, provider fromC toC [] = .error e →
        getExchangeRateForPair provider cache now maxDays fromC toC []
          = ⟨.error (.apiErr e), cache, [.getOp fromC toC],
              [(fromC, toC, [])]⟩)) := by
  refine ⟨?_, fun hmiss => ⟨?_, ?_⟩⟩
  · intro entry hhit
    unfold getExchangeRateForPair
    simp [GetRate, hhit]
  · intro q hq
    have heq : getExchangeRateForPair provider cache now maxDays
        fromC toC []
        = ⟨.ok q, SetRate cache fromC toC q now,
            [.getOp fromC toC, .setOp fromC toC q],
            [(fromC, toC, [])]⟩ := by
      unfold getExchangeRateForPair
      simp [GetRate, hmiss, hq]
    exact ⟨heq, by rw [heq]; exact getRate_setRate_same ..⟩
  · intro e he
    unfold getExchangeRateForPair
    simp [GetRate, hmiss, he]

/-- Witness for C1 (miss-then-success leg) at USD/EUR on the empty
cache with the stub provider. -/
theorem latestPathWriteThroughInstance :
    getExchangeRateForPair stubProvider emptyCache 0 90 "USD".data
        "EUR".data []
      = ⟨.ok 2, SetRate emptyCache "USD".data "EUR".data 2 0,
          [.getOp "USD".data "EUR".data, .setOp "USD".data "EUR".data 2],
          [("USD".data, "EUR".data, [])]⟩ ∧
    GetRate (getExchangeRateForPair stubProvider emptyCache 0 90
      "USD".data "EUR".data []).cache "USD".data "EUR".data
      = (2, true) :=
  ((latestPathWriteThrough stubProvider emptyCache 0 90 "USD".data
      "EUR".data (by decide) (by decide)).2 rfl).1 2 rfl

/-! ### C5: the historical path never touches the cache -/

/-- `GetHistoricalExchangeRate` returns the incoming cache unchanged,
whatever the inputs. -/
theorem hist_cache_eq (provider : Provider) (cache : Cache) (now : Int)
    (maxDays : Nat) (fromC toC dateStr : Str) :
    (GetHistoricalExchangeRate provider cache now maxDays fromC toC
      dateStr).cache = cache := by
  unfold GetHistoricalExchangeRate
  (repeat' split) <;> rfl

/-- `GetHistoricalExchangeRate` performs no cache operation, whatever
the inputs. -/
theorem hist_cacheOps_nil (provider : Provider) (cache : Cache)
    (now : Int) (maxDays : Nat) (fromC toC dateStr : Str) :
    (GetHistoricalExchangeRate provider cache now maxDays fromC toC
      dateStr).cacheOps = [] := by
  unfold GetHistoricalExchangeRate
  (repeat' split) <;> rfl

/-- C5: `GetHistoricalExchangeRate` never reads from and never writes
to the cache (no cache operation, cache state returned unchanged),
and whenever validation succeeds — supported distinct currencies,
well-formed in-range date — it makes exactly one provider call with
the given arguments and propagates the provider's rate or error; in
particular its result is independent of the cache, so repeated calls
hit the provider every time with no caching short-circuit. -/
theorem historicalBypassesCache (provider : Provider) (cache : Cache)
    (now : Int) (maxDays : Nat) (fromC toC dateStr : Str)
    (parsedDate : Int) :
    (GetHistoricalExchangeRate provider cache now maxDays fromC toC
      dateStr).cache = cache ∧
    (GetHistoricalExchangeRate provider cache now maxDays fromC toC
      dateStr).cacheOps = [] ∧
    (IsSupportedCurrency fromC = true → IsSupportedCurrency toC = true →
      fromC ≠ toC →
      validateAndParseDate now dateStr = .ok parsedDate →
      validateHistoricalRange now maxDays parsedDate = .ok () →
      (GetHistoricalExchangeRate provider cache now maxDays fromC toC
        dateStr).apiCalls = [(fromC, toC, dateStr)] ∧
      (∀ q, provider fromC toC dateStr = .ok q →
        (GetHistoricalExchangeRate provider cache now maxDays fromC toC
          dateStr).result = .ok q) ∧
      (∀ e, provider fromC toC dateStr = .error e →
        (GetHistoricalExchangeRate provider cache now maxDays fromC toC
          dateStr).result
          = .error (.fetchHistoricalFailed (.apiErr e))) ∧
      (∀ cache₂ : Cache,
        (GetHistoricalExchangeRate provider cache₂ now maxDays fromC
          toC dateStr).result
          = (GetHistoricalExchangeRate provider cache now maxDays fromC
              toC dateStr).result ∧
        (GetHistoricalExchangeRate provider cache₂ now maxDays fromC
          toC dateStr).apiCalls
          = (GetHistoricalExchangeRate provider cache now maxDays fromC
              toC dateStr).apiCalls)) := by
  refine ⟨hist_cache_eq .., hist_cacheOps_nil .., ?_⟩
  intro hf ht hne hparse hrange
  unfold GetHistoricalExchangeRate
  rw [validateCurrencyPair_ok hf ht]
  simp only [if_neg hne, hparse, hrange]
  cases hp : provider fromC toC dateStr <;>
    simp [hp]

/-- Witness for C5: supported pair USD/EUR, a valid recent date, a
concrete provider. -/
theorem historicalBypassesCacheInstance :
    (GetHistoricalExchangeRate stubProvider emptyCache
      (dateSeconds 2025 10 11) 90 "USD".data "EUR".data
      "2025-10-01".data).cache = emptyCache ∧
    (GetHistoricalExchangeRate stubProvider emptyCache
      (dateSeconds 2025 10 11) 90 "USD".data "EUR".data
      "2025-10-01".data).apiCalls
      = [("USD".data, "EUR".data, "2025-10-01".data)] := by
  have h := historicalBypassesCache stubProvider emptyCache
    (dateSeconds 2025 10 11) 90 "USD".data "EUR".data
    "2025-10-01".data (dateSeconds 2025 10 1)
  exact ⟨h.1, (h.2.2 (by decide) (by decide) (by decide) (by decide)
    (by decide)).1⟩

/-! ### C6: malformed date strings -/

/-- C6 counterexample: on the empty date string the service fails
with the distinct empty-date error ("date cannot be empty"), not with
the invalid-format error the claim names. -/
theorem emptyDateErrorCounterexample :
    (GetHistoricalExchangeRate stubProvider emptyCache 0 90 "USD".data
      "EUR".data []).result = .error .dateEmpty ∧
    (GetHistoricalExchangeRate stubProvider emptyCache 0 90 "USD".data
      "EUR".data []).result ≠ .error (.invalidDateFormat []) ∧
    (GetHistoricalExchangeRate stubProvider emptyCache 0 90 "USD".data
      "EUR".data []).apiCalls = [] := by
  refine ⟨by decide, by decide, by decide⟩

/-- C6 (amended): for every pair of distinct supported currencies and
every date string the strict parser rejects, `GetHistoricalExchangeRate`
fails before any provider call — with the invalid-date-format error
for non-empty strings such as "2025-13-40" and "not-a-date", and with
the distinct empty-date error for "". -/
theorem malformedDateRejected (provider : Provider) (cache : Cache)
    (now : Int) (maxDays : Nat) (fromC toC dateStr : Str)
    (hf : IsSupportedCurrency fromC = true)
    (ht : IsSupportedCurrency toC = true) (hne : fromC ≠ toC)
    (hbad : parseDate dateStr = none) :
    (dateStr ≠ [] →
      (GetHistoricalExchangeRate provider cache now maxDays fromC toC
        dateStr).result = .error (.invalidDateFormat dateStr)) ∧
    (dateStr = [] →
      (GetHistoricalExchangeRate provider cache now maxDays fromC toC
        dateStr).result = .error .dateEmpty) ∧
    (GetHistoricalExchangeRate provider cache now maxDays fromC toC
      dateStr).apiCalls = [] ∧
    (GetHistoricalExchangeRate provider cache now maxDays fromC toC
      dateStr).cache = cache := by
  have hval : validateAndParseDate now dateStr
      = (if dateStr = [] then .error .dateEmpty
         else .error (.invalidDateFormat dateStr)) := by
    unfold validateAndParseDate
    by_cases h : dateStr = [] <;> simp [h, hbad]
  refine ⟨?_, ?_, ?_, hist_cache_eq ..⟩
  · intro hds
    unfold GetHistoricalExchangeRate
    rw [validateCurrencyPair_ok hf ht]
    simp [if_neg hne, hval, hds]
  · intro hds
    subst hds
    unfold GetHistoricalExchangeRate
    rw [validateCurrencyPair_ok hf ht]
    simp [if_neg hne, hval]
  · unfold GetHistoricalExchangeRate
    rw [validateCurrencyPair_ok hf ht]
    by_cases hds : dateStr = []
    · subst hds
      simp [if_neg hne, hval]
    · simp [if_neg hne, hval, hds]

/-- Witness for the amended C6 at "2025-13-40". -/
theorem malformedDateRejectedInstance :
    (GetHistoricalExchangeRate stubProvider emptyCache 0 90 "USD".data
      "EUR".data "2025-13-40".data).result
      = .error (.invalidDateFormat "2025-13-40".data) ∧
    (GetHistoricalExchangeRate stubProvider emptyCache 0 90 "USD".data
      "EUR".data "2025-13-40".data).apiCalls = [] := by
  have h := malformedDateRejected stubProvider emptyCache 0 90
    "USD".data "EUR".data "2025-13-40".data (by decide) (by decide)
    (by decide) (by decide)
  exact ⟨h.1 (by decide), h.2.2.1⟩

/-! ### C10: cache keys are normalization-invariant -/

/-- A character that is not an ASCII lowercase letter is fixed by
upper-casing. -/
theorem goToUpperChar_of_not_lower (c : Char)
    (h1 : c ≠ 'a')
    (h2 : c ≠ 'b')
    (h3 : c ≠ 'c')
    (h4 : c ≠ 'd')
    (h5 : c ≠ 'e')
    (h6 : c ≠ 'f')
    (h7 : c ≠ 'g')
    (h8 : c ≠ 'h')
    (h9 : c ≠ 'i')
    (h10 : c ≠ 'j')
    (h11 : c ≠ 'k')
    (h12 : c ≠ 'l')
    (h13 : c ≠ 'm')
    (h14 : c ≠ 'n')
    (h15 : c ≠ 'o')
    (h16 : c ≠ 'p')
    (h17 : c ≠ 'q')
    (h18 : c ≠ 'r')
    (h19 : c ≠ 's')
    (h20 : c ≠ 't')
    (h21 : c ≠ 'u')
    (h22 : c ≠ 'v')
    (h23 : c ≠ 'w')
    (h24 : c ≠ 'x')
    (h25 : c ≠ 'y')
    (h26 : c ≠ 'z') :
    goToUpperChar c = c := by
  simp [goToUpperChar, h1, h2, h3, h4, h5, h6, h7, h8, h9, h10, h11, h12, h13, h14, h15, h16, h17, h18, h19, h20, h21, h22, h23, h24, h25, h26]

/-- Upper-casing a character twice is the same as once. -/
theorem goToUpperChar_idem (c : Char) :
    goToUpperChar (goToUpperChar c) = goToUpperChar c := by
  by_cases h1 : c = 'a'
  · subst h1; decide
  by_cases h2 : c = 'b'
  · subst h2; decide
  by_cases h3 : c = 'c'
  · subst h3; decide
  by_cases h4 : c = 'd'
  · subst h4; decide
  by_cases h5 : c = 'e'
  · subst h5; decide
  by_cases h6 : c = 'f'
  · subst h6; decide
  by_cases h7 : c = 'g'
  · subst h7; decide
  by_cases h8 : c = 'h'
  · subst h8; decide
  by_cases h9 : c = 'i'
  · subst h9; decide
  by_cases h10 : c = 'j'
  · subst h10; decide
  by_cases h11 : c = 'k'
  · subst h11; decide
  by_cases h12 : c = 'l'
  · subst h12; decide
  by_cases h13 : c = 'm'
  · subst h13; decide
  by_cases h14 : c = 'n'
  · subst h14; decide
  by_cases h15 : c = 'o'
  · subst h15; decide
  by_cases h16 : c = 'p'
  · subst h16; decide
  by_cases h17 : c = 'q'
  · subst h17; decide
  by_cases h18 : c = 'r'
  · subst h18; decide
  by_cases h19 : c = 's'
  · subst h19; decide
  by_cases h20 : c = 't'
  · subst h20; decide
  by_cases h21 : c = 'u'
  · subst h21; decide
  by_cases h22 : c = 'v'
  · subst h22; decide
  by_cases h23 : c = 'w'
  · subst h23; decide
  by_cases h24 : c = 'x'
  · subst h24; decide
  by_cases h25 : c = 'y'
  · subst h25; decide
  by_cases h26 : c = 'z'
  · subst h26; decide
  rw [goToUpperChar_of_not_lower c h1 h2 h3 h4 h5 h6 h7 h8 h9 h10 h11 h12 h13 h14 h15 h16 h17 h18 h19 h20 h21 h22 h23 h24 h25 h26,
    goToUpperChar_of_not_lower c h1 h2 h3 h4 h5 h6 h7 h8 h9 h10 h11 h12 h13 h14 h15 h16 h17 h18 h19 h20 h21 h22 h23 h24 h25 h26]

/-- Upper-casing preserves the space classification. -/
theorem goIsSpace_goToUpperChar (c : Char) :
    goIsSpace (goToUpperChar c) = goIsSpace c := by
  by_cases h1 : c = 'a'
  · subst h1; decide
  by_cases h2 : c = 'b'
  · subst h2; decide
  by_cases h3 : c = 'c'
  · subst h3; decide
  by_cases h4 : c = 'd'
  · subst h4; decide
  by_cases h5 : c = 'e'
  · subst h5; decide
  by_cases h6 : c = 'f'
  · subst h6; decide
  by_cases h7 : c = 'g'
  · subst h7; decide
  by_cases h8 : c = 'h'
  · subst h8; decide
  by_cases h9 : c = 'i'
  · subst h9; decide
  by_cases h10 : c = 'j'
  · subst h10; decide
  by_cases h11 : c = 'k'
  · subst h11; decide
  by_cases h12 : c = 'l'
  · subst h12; decide
  by_cases h13 : c = 'm'
  · subst h13; decide
  by_cases h14 : c = 'n'
  · subst h14; decide
  by_cases h15 : c = 'o'
  · subst h15; decide
  by_cases h16 : c = 'p'
  · subst h16; decide
  by_cases h17 : c = 'q'
  · subst h17; decide
  by_cases h18 : c = 'r'
  · subst h18; decide
  by_cases h19 : c = 's'
  · subst h19; decide
  by_cases h20 : c = 't'
  · subst h20; decide
  by_cases h21 : c = 'u'
  · subst h21; decide
  by_cases h22 : c = 'v'
  · subst h22; decide
  by_cases h23 : c = 'w'
  · subst h23; decide
  by_cases h24 : c = 'x'
  · subst h24; decide
  by_cases h25 : c = 'y'
  · subst h25; decide
  by_cases h26 : c = 'z'
  · subst h26; decide
  rw [goToUpperChar_of_not_lower c h1 h2 h3 h4 h5 h6 h7 h8 h9 h10 h11 h12 h13 h14 h15 h16 h17 h18 h19 h20 h21 h22 h23 h24 h25 h26]

/-- Upper-casing a string twice is the same as once. -/
theorem goToUpper_idem (s : Str) :
    goToUpper (goToUpper s) = goToUpper s := by
  unfold goToUpper
  rw [List.map_map]
  exact List.map_congr_left fun c _ => goToUpperChar_idem c

/-- `dropWhile` is idempotent. -/
theorem dropWhile_idem (p : Char → Bool) (l : Str) :
    (l.dropWhile p).dropWhile p = l.dropWhile p := by
  induction l with
  | nil => rfl
  | cons a t ih =>
    by_cases h : p a <;> simp [List.dropWhile_cons, h, ih]

/-- The head of a `dropWhile p` result falsifies `p`. -/
theorem head_dropWhile_false (p : Char → Bool) (l : Str) :
    ∀ a, (l.dropWhile p).head? = some a → p a = false := by
  induction l with
  | nil => intro a h; cases h
  | cons b t ih =>
    intro a h
    by_cases hb : p b
    · exact ih a (by simpa [List.dropWhile_cons, hb] using h)
    · rw [List.dropWhile_cons, if_neg (by simpa using hb)] at h
      cases h
      simpa using hb

/-- A list whose head falsifies `p` is fixed by `dropWhile p`. -/
theorem dropWhile_eq_self_of_head (p : Char → Bool) (l : Str)
    (h : ∀ a, l.head? = some a → p a = false) : l.dropWhile p = l := by
  cases l with
  | nil => rfl
  | cons a t => simp [List.dropWhile_cons, h a rfl]

/-- `dropWhile` removes an initial segment. -/
theorem exists_append_dropWhile (p : Char → Bool) (l : Str) :
    ∃ u, u ++ l.dropWhile p = l := by
  induction l with
  | nil => exact ⟨[], rfl⟩
  | cons a t ih =>
    by_cases h : p a
    · obtain ⟨u, hu⟩ := ih
      exact ⟨a :: u, by simp [List.dropWhile_cons, h, hu]⟩
    · exact ⟨[], by simp [List.dropWhile_cons, h]⟩

/-- Trimming is idempotent. -/
theorem goTrimSpace_idem (s : Str) :
    goTrimSpace (goTrimSpace s) = goTrimSpace s := by
  unfold goTrimSpace
  set A := s.dropWhile goIsSpace with hA
  set B := A.reverse.dropWhile goIsSpace with hB
  have hBd : B.dropWhile goIsSpace = B := by
    rw [hB]; exact dropWhile_idem ..
  have hBrev : B.reverse.dropWhile goIsSpace = B.reverse := by
    apply dropWhile_eq_self_of_head
    intro a ha
    obtain ⟨u, hu⟩ := exists_append_dropWhile goIsSpace A.reverse
    have h2 : A.reverse = u ++ B := by rw [hB]; exact hu.symm
    have hA' : A = B.reverse ++ u.reverse := by
      have h3 := congrArg List.reverse h2
      simpa [List.reverse_append] using h3
    obtain ⟨b, rest, hbr⟩ : ∃ b rest, B.reverse = b :: rest := by
      cases hBr : B.reverse with
      | nil => rw [hBr] at ha; cases ha
      | cons b rest => exact ⟨b, rest, rfl⟩
    have hhead : A.head? = some a := by
      rw [hbr] at ha
      have hba : b = a := by simpa using ha
      rw [hA', hbr, hba]
      rfl
    exact head_dropWhile_false goIsSpace s a (by rw [← hA]; exact hhead)
  rw [hBrev, List.reverse_reverse, hBd]

/-- Trimming commutes with upper-casing. -/
theorem goTrimSpace_goToUpper (s : Str) :
    goTrimSpace (goToUpper s) = goToUpper (goTrimSpace s) := by
  have hdw : ∀ l : Str, (l.map goToUpperChar).dropWhile goIsSpace
      = (l.dropWhile goIsSpace).map goToUpperChar := by
    intro l
    induction l with
    | nil => rfl
    | cons a t ih =>
      by_cases h : goIsSpace a
      · have h' : goIsSpace (goToUpperChar a) = true := by
          rw [goIsSpace_goToUpperChar]; exact h
        simp [List.dropWhile_cons, h, h', ih]
      · have h' : goIsSpace (goToUpperChar a) = false := by
          rw [goIsSpace_goToUpperChar]; simpa using h
        simp [List.dropWhile_cons, h, h']
  unfold goTrimSpace goToUpper
  rw [hdw, ← List.map_reverse, hdw, ← List.map_reverse]

/-- Normalization is idempotent. -/
theorem normalizeCode_idem (s : Str) :
    normalizeCode (normalizeCode s) = normalizeCode s := by
  unfold normalizeCode
  rw [goTrimSpace_goToUpper, goTrimSpace_idem, goToUpper_idem]

/-- C10: cache keys are normalization-invariant — `buildRateKey`
yields the same key on raw codes and on their normalized forms
(uppercase of trimmed), hence `GetRate` returns the same result and
`SetRate` writes the same table, because both operations normalize
before building their key. -/
theorem cacheKeyNormalizationInvariant (fromC toC : Str)
    (cache : Cache) (rate : ℚ) (now : Int) :
    buildRateKey fromC toC
      = buildRateKey (normalizeCode fromC) (normalizeCode toC) ∧
    GetRate cache fromC toC
      = GetRate cache (normalizeCode fromC) (normalizeCode toC) ∧
    SetRate cache fromC toC rate now
      = SetRate cache (normalizeCode fromC) (normalizeCode toC)
          rate now := by
  have hkey : buildRateKey fromC toC
      = buildRateKey (normalizeCode fromC) (normalizeCode toC) := by
    unfold buildRateKey
    rw [normalizeCode_idem, normalizeCode_idem]
  refine ⟨hkey, ?_, ?_⟩
  · unfold GetRate
    rw [hkey]
  · funext k
    unfold SetRate
    rw [hkey]

/-! ### C2: per-pair isolation of the background refresh sweep -/

/-- One refresh step does not affect keys other than its own pair's
key. -/
theorem refreshPairStep_frame (provider : Provider) (now : Int)
    (c : Cache) (p : Str × Str) (k : Str)
    (hk : buildRateKey p.1 p.2 ≠ k) :
    refreshPairStep provider now c p k = c k := by
  unfold refreshPairStep
  cases provider p.1 p.2 [] with
  | error e => rfl
  | ok r =>
    show (if k = buildRateKey p.1 p.2 then
        some { exchangeRate := r, lastUpdated := now } else c k) = c k
    rw [if_neg fun h => hk h.symm]

/-- A fold of refresh steps over pairs none of which owns key `k`
leaves `k` unchanged. -/
theorem refreshFold_frame (provider : Provider) (now : Int)
    (ps : List (Str × Str)) (cache : Cache) (k : Str)
    (h : ∀ p ∈ ps, buildRateKey p.1 p.2 ≠ k) :
    ps.foldl (refreshPairStep provider now) cache k = cache k := by
  induction ps generalizing cache with
  | nil => rfl
  | cons a t ih =>
    rw [List.foldl_cons,
      ih _ fun p hp => h p (List.mem_cons_of_mem a hp),
      refreshPairStep_frame _ _ _ _ _ (h a (List.mem_cons_self a t))]

/-- Value at a visited pair's key after the whole fold: the prior
value when that pair's fetch fails, the fetched rate when it
succeeds — provided no distinct visited pair shares the key. -/
theorem refreshFold_mem (provider : Provider) (now : Int)
    (ps : List (Str × Str)) (cache : Cache) (p : Str × Str)
    (hmem : p ∈ ps) (hnd : ps.Nodup)
    (hinj : ∀ q ∈ ps, buildRateKey q.1 q.2 = buildRateKey p.1 p.2 →
      q = p) :
    (∀ e, provider p.1 p.2 [] = .error e →
      ps.foldl (refreshPairStep provider now) cache
        (buildRateKey p.1 p.2) = cache (buildRateKey p.1 p.2)) ∧
    (∀ r, provider p.1 p.2 [] = .ok r →
      ps.foldl (refreshPairStep provider now) cache
        (buildRateKey p.1 p.2)
        = some { exchangeRate := r, lastUpdated := now }) := by
  induction ps generalizing cache with
  | nil => cases hmem
  | cons a t ih =>
    rw [List.foldl_cons]
    by_cases hap : a = p
    · subst hap
      have hpt : a ∉ t := (List.nodup_cons.mp hnd).1
      have hframe : ∀ q ∈ t, buildRateKey q.1 q.2 ≠ buildRateKey a.1 a.2 := by
        intro q hq heq
        exact hpt ((hinj q (List.mem_cons_of_mem a hq) heq) ▸ hq)
      rw [refreshFold_frame provider now t _ _ hframe]
      constructor
      · intro e he
        unfold refreshPairStep
        rw [he]
      · intro r hr
        unfold refreshPairStep
        rw [hr]
        show (if buildRateKey a.1 a.2 = buildRateKey a.1 a.2 then
            some { exchangeRate := r, lastUpdated := now }
          else cache (buildRateKey a.1 a.2))
          = some { exchangeRate := r, lastUpdated := now }
        rw [if_pos rfl]
    · have hpt : p ∈ t := by
        cases List.mem_cons.mp hmem with
        | inl h => exact absurd h.symm hap
        | inr h => exact h
      have hka : buildRateKey a.1 a.2 ≠ buildRateKey p.1 p.2 :=
        fun heq => hap (hinj a (List.mem_cons_self a t) heq)
      have hstep : refreshPairStep provider now cache a
          (buildRateKey p.1 p.2) = cache (buildRateKey p.1 p.2) :=
        refreshPairStep_frame provider now cache a _ hka
      have ihh := ih (refreshPairStep provider now cache a) hpt
        (List.nodup_cons.mp hnd).2
        (fun q hq => hinj q (List.mem_cons_of_mem a hq))
      exact ⟨fun e he => by rw [ihh.1 e he, hstep],
        fun r hr => ihh.2 r hr⟩

/-- C2: during one background refresh sweep over all ordered pairs
`(i, j)` of the supported list with `i ≠ j` (pairwise distinct keys,
as holds for the configured currency list): a pair whose fetch fails
keeps its prior cache entry — present or absent — unchanged, while
the sweep still processes every other pair; every pair whose fetch
succeeds ends up stored via `SetRate` with the fetched rate.  In
particular, if exactly one pair fails, the other pairs are all
updated and the failed pair's prior value remains. -/
theorem refreshSweepPerPairIsolation (provider : Provider)
    (currencies : List Str) (now : Int) (cache : Cache)
    (hnd : (indexedPairs currencies).Nodup)
    (hinj : ∀ q ∈ indexedPairs currencies,
      ∀ p ∈ indexedPairs currencies,
        buildRateKey q.1 q.2 = buildRateKey p.1 p.2 → q = p) :
    ∀ p ∈ indexedPairs currencies,
      (∀ e, provider p.1 p.2 [] = .error e →
        refreshAllRates provider currencies now cache
          (buildRateKey p.1 p.2) = cache (buildRateKey p.1 p.2)) ∧
      (∀ r, provider p.1 p.2 [] = .ok r →
        refreshAllRates provider currencies now cache
          (buildRateKey p.1 p.2)
          = some { exchangeRate := r, lastUpdated := now }) := by
  intro p hp
  exact refreshFold_mem provider now (indexedPairs currencies) cache p
    hp hnd (fun q hq => hinj q hq p hp)

/-- A provider that fails exactly on the pair USD → INR. -/
def sweepProvider : Provider := fun fromC toC _ =>
  if fromC = "USD".data ∧ toC = "INR".data then .error .httpReqFailed
  else .ok 2

/-- Witness for C2: over the configured currency list, with a prior
entry for USD-INR and a provider failing exactly on USD → INR, the
sweep leaves USD-INR at its prior value and updates USD-EUR. -/
theorem refreshSweepPerPairIsolationInstance :
    refreshAllRates sweepProvider SupportedCurrencyList 5
      (SetRate emptyCache "USD".data "INR".data 7 1)
      (buildRateKey "USD".data "INR".data)
      = SetRate emptyCache "USD".data "INR".data 7 1
          (buildRateKey "USD".data "INR".data) ∧
    refreshAllRates sweepProvider SupportedCurrencyList 5
      (SetRate emptyCache "USD".data "INR".data 7 1)
      (buildRateKey "USD".data "EUR".data)
      = some { exchangeRate := 2, lastUpdated := 5 } := by
  have h := refreshSweepPerPairIsolation sweepProvider
    SupportedCurrencyList 5
    (SetRate emptyCache "USD".data "INR".data 7 1)
    (by decide) (by decide)
  exact ⟨(h ("USD".data, "INR".data) (by decide)).1 .httpReqFailed
      (by decide),
    (h ("USD".data, "EUR".data) (by decide)).2 2 (by decide)⟩

/-! ### C4: date boundaries -/

/-- C4 counterexample: "2025-07-13" is the calendar date exactly 90
days before "2025-10-11" (third conjunct), yet with `now` at noon of
2025-10-11 the historical lookup for it fails with `DateOutOfRange`:
the parsed date is midnight, while the cutoff `now.AddDate(0,0,-90)`
carries now's time of day, so the claimed acceptance of the date
"exactly at now minus max-lookback days" fails for any `now` not
exactly at midnight. -/
theorem lookbackBoundaryCounterexample :
    parseDate "2025-07-13".data = some (dateSeconds 2025 7 13) ∧
    parseDate "2025-10-11".data = some (dateSeconds 2025 10 11) ∧
    dateSeconds 2025 10 11 - dateSeconds 2025 7 13 = 90 * 86400 ∧
    (GetHistoricalExchangeRate stubProvider emptyCache
      (dateSeconds 2025 10 11 + 43200) 90 "USD".data "EUR".data
      "2025-07-13".data).result = .error .dateOutOfRange ∧
    (GetHistoricalExchangeRate stubProvider emptyCache
      (dateSeconds 2025 10 11 + 43200) 90 "USD".data "EUR".data
      "2025-07-13".data).apiCalls = [] := by
  refine ⟨by decide, by decide, by decide, by decide, by decide⟩

/-- C4 (amended): the checks compare instants.  A parsed instant
exactly at `now - maxDays` days is accepted by the range check and one
day further back fails with `DateOutOfRange`; a parsed date before or
at `now` passes the future check while one after `now` fails with
`FutureDate`; today's date (midnight of now's day) passes the range
check.  But date strings parse to midnight, so the calendar date
exactly `maxDays` back is accepted only when `now` is exactly at a
midnight boundary: for any `now` with positive time of day it fails
with `DateOutOfRange`. -/
theorem dateBoundaryChecks (now t q r : Int) (maxDays : Nat)
    (d : Str) :
    (validateHistoricalRange now maxDays (now - 86400 * maxDays)
      = .ok ()) ∧
    (validateHistoricalRange now maxDays
      (now - 86400 * ((maxDays : Int) + 1)) = .error .dateOutOfRange) ∧
    (parseDate d = some t → t ≤ now →
      validateAndParseDate now d = .ok t) ∧
    (parseDate d = some t → now < t →
      validateAndParseDate now d = .error (.futureDate d)) ∧
    (now = 86400 * q + r → 0 < r → r < 86400 →
      validateHistoricalRange now maxDays
        (86400 * (q - (maxDays : Int))) = .error .dateOutOfRange) ∧
    (now = 86400 * q + r → 0 ≤ r → r < 86400 → 1 ≤ maxDays →
      validateHistoricalRange now maxDays (86400 * q) = .ok ()) := by
  refine ⟨?_, ?_, ?_, ?_, ?_, ?_⟩
  · unfold validateHistoricalRange
    rw [if_neg (by omega)]
  · unfold validateHistoricalRange
    rw [if_pos (by omega)]
  · intro hp hle
    have hd : d ≠ [] := fun h => by rw [h] at hp; cases hp
    unfold validateAndParseDate
    rw [if_neg hd, hp]
    show (if now < t then Except.error (SvcErr.futureDate d)
      else Except.ok t) = Except.ok t
    rw [if_neg (not_lt.mpr hle)]
  · intro hp hlt
    have hd : d ≠ [] := fun h => by rw [h] at hp; cases hp
    unfold validateAndParseDate
    rw [if_neg hd, hp]
    show (if now < t then Except.error (SvcErr.futureDate d)
      else Except.ok t) = Except.error (SvcErr.futureDate d)
    rw [if_pos hlt]
  · intro hnow hr0 hr1
    unfold validateHistoricalRange
    rw [if_pos (by rw [hnow]; ring_nf; omega)]
  · intro hnow hr0 hr1 hmd
    unfold validateHistoricalRange
    rw [if_neg ?_]
    rw [hnow]
    have h86 : (86400 : Int) * 1 ≤ 86400 * (maxDays : Int) := by
      apply mul_le_mul_of_nonneg_left _ (by norm_num)
      exact_mod_cast hmd
    omega

/-- Witness for the amended C4: `now` at noon of day `q = 20371`
(2025-10-11), `maxDays = 90`: the instant cutoff is accepted, one day
beyond rejected, a future date rejected, today accepted, and the
midnight of `q - 90` rejected. -/
theorem dateBoundaryChecksInstance :
    (validateHistoricalRange (86400 * 20372 + 43200) 90
      (86400 * 20372 + 43200 - 86400 * 90) = .ok ()) ∧
    (validateHistoricalRange (86400 * 20372 + 43200) 90
      (86400 * (20372 - (90 : Int))) = .error .dateOutOfRange) ∧
    (validateHistoricalRange (86400 * 20372 + 43200) 90
      (86400 * 20372) = .ok ()) := by
  have h := dateBoundaryChecks (86400 * 20372 + 43200)
    (86400 * 20372) 20372 43200 90 []
  exact ⟨h.1, h.2.2.2.2.1 rfl (by norm_num) (by norm_num),
    h.2.2.2.2.2 rfl (by norm_num) (by norm_num) (by norm_num)⟩

/-! ### C8: cache entries come only from successful, positive fetches -/

/-- A successful `doAPICall` returns a positive rate (the client
rejects non-success results and non-positive rates before returning). -/
theorem doAPICall_pos (http : Str → HTTPResponse)
    (apiKey fromC toC dt : Str) (q : ℚ)
    (h : doAPICall http apiKey fromC toC dt = .ok q) : 0 < q := by
  simp only [doAPICall] at h
  (repeat' split at h) <;>
    first
      | (rename_i hpos
         injection h with hq
         rw [← hq]
         exact lt_of_not_le fun hle => hpos hle)
      | cases h

/-- A successful `clientGetRate` (either attempt) returns a positive
rate. -/
theorem clientGetRate_pos (http : Nat → Str → HTTPResponse)
    (apiKey fromC toC dt : Str) (q : ℚ)
    (h : clientGetRate http apiKey fromC toC dt = .ok q) : 0 < q := by
  unfold clientGetRate at h
  cases h1 : doAPICall (http 1) apiKey fromC toC dt with
  | ok r =>
    rw [h1] at h
    injection h with hq
    rw [← hq]
    exact doAPICall_pos _ _ _ _ _ _ h1
  | error e1 =>
    rw [h1] at h
    cases h2 : doAPICall (http 2) apiKey fromC toC dt with
    | ok r =>
      rw [h2] at h
      injection h with hq
      rw [← hq]
      exact doAPICall_pos _ _ _ _ _ _ h2
    | error e2 =>
      rw [h2] at h
      cases h

/-- Every key after `getExchangeRateForPair` either keeps its prior
value or holds a rate the provider returned successfully: a failed
fetch never creates or overwrites an entry. -/
theorem getPair_cache_cases (provider : Provider) (cache : Cache)
    (now : Int) (maxDays : Nat) (fromC toC dateStr : Str) (k : Str) :
    (getExchangeRateForPair provider cache now maxDays fromC toC
      dateStr).cache k = cache k ∨
    ∃ qr, provider fromC toC [] = .ok qr ∧
      (getExchangeRateForPair provider cache now maxDays fromC toC
        dateStr).cache k
        = some { exchangeRate := qr, lastUpdated := now } := by
  unfold getExchangeRateForPair
  split
  · (repeat' split) <;> exact Or.inl rfl
  · split
    · exact Or.inl rfl
    · split
      · exact Or.inl rfl
      · rename_i rate hrate
        by_cases hk : k = buildRateKey fromC toC
        · refine Or.inr ⟨rate, hrate, ?_⟩
          show (if k = buildRateKey fromC toC then
              some { exchangeRate := rate, lastUpdated := now }
            else cache k)
            = some { exchangeRate := rate, lastUpdated := now }
          rw [if_pos hk]
        · refine Or.inl ?_
          show (if k = buildRateKey fromC toC then
              some { exchangeRate := rate, lastUpdated := now }
            else cache k) = cache k
          rw [if_neg hk]

/-- The same, lifted to `ConvertCurrencyAmount`. -/
theorem convert_cache_cases (provider : Provider) (cache : Cache)
    (now : Int) (maxDays : Nat) (fromC toC : Str) (amt : ℚ)
    (dt : Str) (k : Str) :
    (ConvertCurrencyAmount provider cache now maxDays fromC toC amt
      dt).cache k = cache k ∨
    ∃ qr, provider fromC toC [] = .ok qr ∧
      (ConvertCurrencyAmount provider cache now maxDays fromC toC amt
        dt).cache k
        = some { exchangeRate := qr, lastUpdated := now } := by
  simp only [ConvertCurrencyAmount]
  split
  · exact Or.inl rfl
  · split
    · exact Or.inl rfl
    · split
      · exact Or.inl rfl
      · split <;>
          exact getPair_cache_cases provider cache now maxDays fromC
            toC dt k

/-- The same, for a whole fold of refresh steps. -/
theorem refreshFold_cache_cases (provider : Provider) (now : Int)
    (ps : List (Str × Str)) (cache : Cache) (k : Str) :
    (ps.foldl (refreshPairStep provider now) cache) k = cache k ∨
    ∃ f t qr, provider f t [] = .ok qr ∧
      (ps.foldl (refreshPairStep provider now) cache) k
        = some { exchangeRate := qr, lastUpdated := now } := by
  induction ps generalizing cache with
  | nil => exact Or.inl rfl
  | cons a tl ih =>
    rw [List.foldl_cons]
    rcases ih (refreshPairStep provider now cache a) with
      h | ⟨f, t, qr, hq, hk⟩
    · cases hp : provider a.1 a.2 [] with
      | error e =>
        refine Or.inl ?_
        rw [h]
        unfold refreshPairStep
        rw [hp]
      | ok r =>
        by_cases hk2 : k = buildRateKey a.1 a.2
        · refine Or.inr ⟨a.1, a.2, r, hp, ?_⟩
          rw [h]
          unfold refreshPairStep
          rw [hp]
          show (if k = buildRateKey a.1 a.2 then
              some { exchangeRate := r, lastUpdated := now }
            else cache k)
            = some { exchangeRate := r, lastUpdated := now }
          rw [if_pos hk2]
        · refine Or.inl ?_
          rw [h]
          unfold refreshPairStep
          rw [hp]
          show (if k = buildRateKey a.1 a.2 then
              some { exchangeRate := r, lastUpdated := now }
            else cache k) = cache k
          rw [if_neg hk2]
    · exact Or.inr ⟨f, t, qr, hq, hk⟩

/-- In every reachable cache state, every entry's rate is positive. -/
theorem reachable_entries_pos :
    ∀ c, Reachable c → ∀ k e, c k = some e → 0 < e.exchangeRate := by
  intro c hreach
  induction hreach with
  | empty => intro k e he; cases he
  | convertStep http apiKey now maxDays fromC toC amt dt c hc ih =>
    intro k e he
    rcases convert_cache_cases (clientGetRate http apiKey) c now
      maxDays fromC toC amt dt k with h | ⟨qr, hq, hk⟩
    · rw [h] at he
      exact ih k e he
    · rw [hk] at he
      cases he
      exact clientGetRate_pos http apiKey fromC toC [] qr hq
  | historicalStep http apiKey now maxDays fromC toC dateStr c hc ih =>
    intro k e he
    rw [hist_cache_eq] at he
    exact ih k e he
  | refreshStep http apiKey currencies now c hc ih =>
    intro k e he
    unfold refreshAllRates at he
    rcases refreshFold_cache_cases (clientGetRate http apiKey) now
      (indexedPairs currencies) c k with h | ⟨f, t, qr, hq, hk⟩
    · rw [h] at he
      exact ih k e he
    · rw [hk] at he
      cases he
      exact clientGetRate_pos http apiKey f t [] qr hq

/-- C8: in every cache state reachable from the empty table via the
core's operations with the real rate client as provider, every stored
entry's rate is positive (the client rejects non-success responses
and non-positive rates before any store), a successful client call
always yields a positive rate, and on both the miss-path write-through
and the refresh sweep every key either keeps its prior value or holds
a successfully fetched rate — a failed fetch never creates or
overwrites an entry. -/
theorem cachePositiveRateInvariant :
    (∀ c, Reachable c → ∀ k e, c k = some e → 0 < e.exchangeRate) ∧
    (∀ (http : Nat → Str → HTTPResponse) (apiKey fromC toC dt : Str)
      (q : ℚ), clientGetRate http apiKey fromC toC dt = .ok q →
        0 < q) ∧
    (∀ (provider : Provider) (cache : Cache) (now : Int)
      (maxDays : Nat) (fromC toC dateStr k : Str),
      (getExchangeRateForPair provider cache now maxDays fromC toC
        dateStr).cache k = cache k ∨
      ∃ qr, provider fromC toC [] = .ok qr ∧
        (getExchangeRateForPair provider cache now maxDays fromC toC
          dateStr).cache k
          = some { exchangeRate := qr, lastUpdated := now }) ∧
    (∀ (provider : Provider) (currencies : List Str) (now : Int)
      (cache : Cache) (k : Str),
      refreshAllRates provider currencies now cache k = cache k ∨
      ∃ f t qr, provider f t [] = .ok qr ∧
        refreshAllRates provider currencies now cache k
          = some { exchangeRate := qr, lastUpdated := now }) :=
  ⟨reachable_entries_pos,
    fun http apiKey fromC toC dt q h =>
      clientGetRate_pos http apiKey fromC toC dt q h,
    fun provider cache now maxDays fromC toC dateStr k =>
      getPair_cache_cases provider cache now maxDays fromC toC
        dateStr k,
    fun provider currencies now cache k =>
      refreshFold_cache_cases provider now (indexedPairs currencies)
        cache k⟩

/-- An HTTP layer whose every response is a success with rate 2. -/
def goodHttp : Nat → Str → HTTPResponse := fun _ _ =>
  .resp 200 false [] (some ⟨"success".data, 2⟩)

/-- Witness for C8: the cache state after one miss-path conversion
through the real client is reachable, holds the fetched entry at the
USD-EUR key, and the invariant instantiates to its positivity. -/
theorem cachePositiveRateInvariantInstance :
    (ConvertCurrencyAmount (clientGetRate goodHttp "KEY".data)
      emptyCache 5 90 "USD".data "EUR".data 1 []).cache
      (buildRateKey "USD".data "EUR".data)
      = some { exchangeRate := 2, lastUpdated := 5 } ∧
    (0 : ℚ) <
      (rateEntry.mk 2 5).exchangeRate := by
  have hmem : (ConvertCurrencyAmount (clientGetRate goodHttp
      "KEY".data) emptyCache 5 90 "USD".data "EUR".data 1 []).cache
      (buildRateKey "USD".data "EUR".data)
      = some { exchangeRate := 2, lastUpdated := 5 } := by rfl
  refine ⟨hmem, ?_⟩
  exact cachePositiveRateInvariant.1 _
    (Reachable.convertStep goodHttp "KEY".data 5 90 "USD".data
      "EUR".data 1 [] emptyCache Reachable.empty)
    (buildRateKey "USD".data "EUR".data)
    { exchangeRate := 2, lastUpdated := 5 } hmem

end CurrencyExe

